import Mathlib

/-!
Verification development for a repository with two independent programs:

* `src/Heating/SQA Tool.py` — a serial-port command tool.  Its core is the
  class `SerialManager` (open/close lifecycle, a background reception loop
  that frames incoming bytes into lines, and a send path with a
  single-retry reconnect on write faults).
* `src/tetris.py` — a falling-block game (`TetrisGame`): fixed 10 by 20
  grid, collision checks, rotation kicks, lock, line clear, scoring.

The transport (pyserial) and the clock are external to the program, so the
embedding passes their behaviour in explicitly: each fallible transport
call gets an `Option Fault` oracle saying whether that call raises, and
`random.shuffle` becomes an explicit `shuffle` function argument.  Python
exceptions are modelled as returned `Option SerialErr` values, and the
distinct exception messages of the source become distinct constructors.
The send path additionally returns the ordered list of the externally
visible events it performs (lock acquire/release, write, flush, sleeps),
which is what the concurrency claims are about.
-/

/-! ## Serial tool: errors, state, oracles -/

/-- A transport-level fault raised by the underlying pyserial call. -/
inductive Fault
  | writeFault
  | flushFault
  | openFault
deriving DecidableEq, Repr

/-- The distinct `SerialException` values the source raises, one constructor
per distinct message.
* `alreadyOpen`: the message raised by `open` when a port is already open.
* `notOpen`: the message raised by `send` when no port is open.
* `openError f`: the underlying `serial.Serial(...)` constructor raised `f`.
* `writeFailReconnected f`: the message built at `SQA Tool.py` line 121
  after a successful reopen, wrapping the original write fault `f`.
* `reconnectFailed e`: the message built at line 124, wrapping whatever
  exception `e` the inner block raised. -/
inductive SerialErr
  | alreadyOpen
  | notOpen
  | openError (f : Fault)
  | writeFailReconnected (orig : Fault)
  | reconnectFailed (inner : SerialErr)
deriving DecidableEq, Repr

/-- The underlying `serial.Serial` handle: the port name it was opened on
and its `is_open` flag. -/
structure Handle where
  port : String
  is_open : Bool
deriving DecidableEq, Repr

/-- State of `SerialManager`: `self.ser` (handle or `None`), the
`_stop_event` flag, and whether the `_read_loop` thread is running. -/
structure SerialManager where
  ser : Option Handle
  stopSet : Bool
  rxAlive : Bool
deriving DecidableEq, Repr

/-- Externally visible events of one `send` call, in execution order.
`acquire`/`release` are the mutual-exclusion guard `self._lock`;
`settle ms` is the post-write `time.sleep(delay)`; `cooldown` is the
`time.sleep(1.0)` before the reopen attempt. -/
inductive Ev
  | acquire
  | write (payload : List Nat)
  | flush
  | settle (ms : Nat)
  | closeEv
  | cooldown
  | reopen
  | release
deriving DecidableEq, Repr

/-- Transport behaviour during one `send` call: whether `ser.write` raises,
whether `ser.flush` raises, and whether the `serial.Serial` constructor of
the automatic reopen raises. -/
structure SendWorld where
  writeResult : Option Fault
  flushResult : Option Fault
  reopenResult : Option Fault
deriving DecidableEq, Repr

/-- `SerialManager.is_open`: `self.ser is not None and self.ser.is_open`. -/
def SerialManager.is_open (m : SerialManager) : Bool :=
  match m.ser with
  | some h => h.is_open
  | none => false

/-- `SerialManager.open(port, baudrate)` (lines 38-55): raise if already
open; otherwise construct the handle (`ctor` says whether the constructor
raises), reset its buffers, clear the stop flag and start one reception
thread.  A raised constructor leaves `self.ser` and the rest of the state
untouched because the assignment never happens. -/
def SerialManager.openPort (m : SerialManager) (port : String) (ctor : Option Fault) :
    SerialManager × Option SerialErr :=
  if m.is_open then (m, some SerialErr.alreadyOpen)
  else
    match ctor with
    | some f => (m, some (SerialErr.openError f))
    | none =>
      ({ ser := some { port := port, is_open := true }, stopSet := false, rxAlive := true }, none)

/-- `SerialManager.close()` (lines 57-72): set the stop flag, join the
reception thread (it observes the flag between poll iterations), close the
handle if present while swallowing any close-time fault (`closeFault`),
and set `self.ser = None`.  It never raises, hence the error component is
always `none`. -/
def SerialManager.close (m : SerialManager) (closeFault : Option Fault) :
    SerialManager × Option SerialErr :=
  let m1 : SerialManager := { m with stopSet := true }
  let m2 : SerialManager := { m1 with rxAlive := false }
  let m3 : SerialManager :=
    match m2.ser, closeFault with
    | some _, some _ => { m2 with ser := none }
    | some _, none => { m2 with ser := none }
    | none, _ => { m2 with ser := none }
  (m3, none)

/-! ## Serial tool: payload formatting (`send`, lines 91-97) -/

/-- UTF-8 encoding of one scalar value, as in `str.encode("utf-8")`. -/
def utf8EncodeChar (c : Char) : List Nat :=
  if c.toNat < 128 then [c.toNat]
  else if c.toNat < 2048 then [192 + c.toNat / 64, 128 + c.toNat % 64]
  else if c.toNat < 65536 then
    [224 + c.toNat / 4096, 128 + c.toNat / 64 % 64, 128 + c.toNat % 64]
  else
    [240 + c.toNat / 262144, 128 + c.toNat / 4096 % 64, 128 + c.toNat / 64 % 64,
     128 + c.toNat % 64]

/-- `text.encode("utf-8")`, with a Python `str` embedded as `List Char`. -/
def utf8Encode (text : List Char) : List Nat :=
  (text.map utf8EncodeChar).flatten

/-- `text.endswith("\r")`. -/
def endsWithCR (text : List Char) : Bool :=
  match text.getLast? with
  | some c => decide (c = '\r')
  | none => false

/-- Lines 91-94 of `send`: the UP30 model requires a trailing carriage
return, appended only when missing; every other model leaves the text
unmodified. -/
def addTerminator (model : String) (text : List Char) : List Char :=
  if model = "UP30" then
    if endsWithCR text then text else text ++ ['\r']
  else text

/-- The byte payload `send` writes: terminator handling then UTF-8. -/
def sendPayload (model : String) (text : List Char) : List Nat :=
  utf8Encode (addTerminator model text)

/-- Number of trailing occurrences of byte `b` at the end of `l`. -/
def trailingCount (b : Nat) (l : List Nat) : Nat :=
  (l.reverse.takeWhile fun x => x == b).length

/-- Line 109: `delay = 0.3 if model == "ETTR" else 0.6`, in milliseconds. -/
def delayFor (model : String) : Nat :=
  if model = "ETTR" then 300 else 600

/-! ## Serial tool: the send path (lines 80-124) -/

/-- The `except Exception as e:` block of `send` (lines 112-124): remember
the current port name, run a full `close()` (close-time faults swallowed),
sleep a fixed cooldown, then attempt exactly one reopen on the same port.
The deliberate `raise SerialException("WriteFile ...")` of line 121 sits
inside the inner `try`, so the inner `except Exception as e2` catches it
and re-raises it wrapped in the line-124 message: the caller therefore
receives `reconnectFailed (writeFailReconnected f)` even when the reopen
succeeded.  When the reopen itself raises, the caller receives
`reconnectFailed` wrapping that open error instead.  The guard is released
only when the exception propagates out of the `with` block. -/
def SerialManager.recover (m : SerialManager) (f : Fault) (w : SendWorld) (pre : List Ev) :
    SerialManager × Option SerialErr × List Ev :=
  let port := match m.ser with | some h => h.port | none => ""
  let m1 := (m.close none).1
  let post := [Ev.closeEv, Ev.cooldown, Ev.reopen, Ev.release]
  match m1.openPort port w.reopenResult with
  | (m2, none) =>
    (m2, some (SerialErr.reconnectFailed (SerialErr.writeFailReconnected f)), pre ++ post)
  | (m2, some oe) => (m2, some (SerialErr.reconnectFailed oe), pre ++ post)

/-- `SerialManager.send(text, model)` (lines 80-124): raise `notOpen` when
no port is open; otherwise format the payload, and under the guard write
it, flush, and sleep the model-dependent settle delay — the sleep happens
inside the `with self._lock:` block, so the guard is released only after
the delay.  A write or flush fault diverts into `recover`. -/
def SerialManager.send (m : SerialManager) (text : List Char) (model : String) (w : SendWorld) :
    SerialManager × Option SerialErr × List Ev :=
  if m.is_open = false then (m, some SerialErr.notOpen, [])
  else
    let payload := sendPayload model text
    match w.writeResult with
    | some f => m.recover f w [Ev.acquire, Ev.write payload]
    | none =>
      match w.flushResult with
      | some f => m.recover f w [Ev.acquire, Ev.write payload, Ev.flush]
      | none =>
        (m, none,
          [Ev.acquire, Ev.write payload, Ev.flush, Ev.settle (delayFor model), Ev.release])

/-! ## Serial tool: the reception loop (`_read_loop`, lines 126-155)

The loop accumulates read chunks in `buffer`, and whenever a line-feed
byte is present splits on it, delivers every complete line stripped of
surrounding whitespace to the callback, and keeps only the final
(incomplete) piece. -/

/-- ASCII whitespace bytes stripped by `bytes.strip()`. -/
def isWS (b : Nat) : Bool :=
  b == 9 || b == 10 || b == 11 || b == 12 || b == 13 || b == 32

/-- `line.strip()` for a bytes line. -/
def stripBytes (l : List Nat) : List Nat :=
  ((l.dropWhile isWS).reverse.dropWhile isWS).reverse

/-- `buffer.split(b"\n")`: split on every line-feed byte, keeping empty
pieces, one more piece than separators (Python `bytes.split` semantics). -/
def splitNL : List Nat → List (List Nat)
  | [] => [[]]
  | b :: rest =>
    if b = 10 then [] :: splitNL rest
    else
      match splitNL rest with
      | [] => [[b]]
      | l :: ls => (b :: l) :: ls

/-- Prepend `x` onto the first piece of a split result. -/
def consHead (x : List Nat) : List (List Nat) → List (List Nat)
  | [] => [x]
  | h :: t => (x ++ h) :: t

/-- One iteration of the body at lines 140-149: append the chunk that
`ser.read` returned, and if the accumulator now contains a line feed,
split on it, deliver all complete lines (stripped) in order, and retain
the last piece.  Returns (delivered lines, new accumulator). -/
def processChunk (buffer : List Nat) (data : List Nat) : List (List Nat) × List Nat :=
  if data = [] then ([], buffer)
  else if 10 ∈ buffer ++ data then
    (((splitNL (buffer ++ data)).dropLast).map stripBytes,
      (splitNL (buffer ++ data)).getLastD [])
  else ([], buffer ++ data)

/-- The reception loop run over a sequence of read chunks, starting from a
given accumulator: concatenates the delivered lines of every iteration and
returns them with the final accumulator. -/
def rxRun : List Nat → List (List Nat) → List (List Nat) × List Nat
  | buf, [] => ([], buf)
  | buf, c :: cs =>
    let step := processChunk buf c
    let rest := rxRun step.2 cs
    (step.1 ++ rest.1, rest.2)

/-! ## Tetris: pieces and board (`tetris.py`) -/

/-- The seven tetromino kinds (the keys of `SHAPES`). -/
inductive Kind
  | I
  | O
  | T
  | S
  | Z
  | J
  | L
deriving DecidableEq, Repr, Fintype

/-- `list(SHAPES.keys())` in insertion order. -/
def allKinds : List Kind := [Kind.I, Kind.O, Kind.T, Kind.S, Kind.Z, Kind.J, Kind.L]

/-- The `SHAPES` table: for each kind, the four rotation states, each a
list of (x, y) cell offsets. -/
def shapeList : Kind → List (List (Int × Int))
  | Kind.I =>
    [[(0, 1), (1, 1), (2, 1), (3, 1)],
     [(2, 0), (2, 1), (2, 2), (2, 3)],
     [(0, 2), (1, 2), (2, 2), (3, 2)],
     [(1, 0), (1, 1), (1, 2), (1, 3)]]
  | Kind.O =>
    [[(1, 0), (2, 0), (1, 1), (2, 1)],
     [(1, 0), (2, 0), (1, 1), (2, 1)],
     [(1, 0), (2, 0), (1, 1), (2, 1)],
     [(1, 0), (2, 0), (1, 1), (2, 1)]]
  | Kind.T =>
    [[(1, 0), (0, 1), (1, 1), (2, 1)],
     [(1, 0), (1, 1), (2, 1), (1, 2)],
     [(0, 1), (1, 1), (2, 1), (1, 2)],
     [(1, 0), (0, 1), (1, 1), (1, 2)]]
  | Kind.S =>
    [[(1, 0), (2, 0), (0, 1), (1, 1)],
     [(1, 0), (1, 1), (2, 1), (2, 2)],
     [(1, 1), (2, 1), (0, 2), (1, 2)],
     [(0, 0), (0, 1), (1, 1), (1, 2)]]
  | Kind.Z =>
    [[(0, 0), (1, 0), (1, 1), (2, 1)],
     [(2, 0), (1, 1), (2, 1), (1, 2)],
     [(0, 1), (1, 1), (1, 2), (2, 2)],
     [(1, 0), (0, 1), (1, 1), (0, 2)]]
  | Kind.J =>
    [[(0, 0), (0, 1), (1, 1), (2, 1)],
     [(1, 0), (2, 0), (1, 1), (1, 2)],
     [(0, 1), (1, 1), (2, 1), (2, 2)],
     [(1, 0), (1, 1), (0, 2), (1, 2)]]
  | Kind.L =>
    [[(2, 0), (0, 1), (1, 1), (2, 1)],
     [(1, 0), (1, 1), (1, 2), (2, 2)],
     [(0, 1), (1, 1), (2, 1), (0, 2)],
     [(0, 0), (1, 0), (1, 1), (1, 2)]]

/-- The dataclass `Piece(kind, x, y, r)`. -/
structure Piece where
  kind : Kind
  x : Int
  y : Int
  r : Nat
deriving DecidableEq, Repr

/-- `Piece.cells`: `SHAPES[self.kind][self.r]`.  The source keeps `r` in
`0..3` (rotation always reduces mod 4), so the `% 4` and the `getD`
default only make the lookup total without changing any reachable case. -/
def Piece.cells (p : Piece) : List (Int × Int) :=
  (shapeList p.kind).getD (p.r % 4) []

/-- `Piece.rotated(dr)`: same position, rotation index advanced mod 4. -/
def Piece.rotated (p : Piece) (dr : Nat) : Piece :=
  { kind := p.kind, x := p.x, y := p.y, r := (p.r + dr) % 4 }

def COLS : Nat := 10
def ROWS : Nat := 20

/-- A board cell: `None` or the kind tag stored at lock time. -/
abbrev Cell := Option Kind

/-- `self.board`: rows of cells, row 0 at the top. -/
abbrev Board := List (List Cell)

def emptyRow : List Cell := List.replicate COLS none
def emptyBoard : Board := List.replicate ROWS emptyRow

/-- `self.board[y][x]` (in-range access; the game only indexes after the
bounds checks of `collides`). -/
def cellAt (b : Board) (y x : Nat) : Cell := (b.getD y []).getD x none

/-- `self.board[y][x] = v` (in-range update). -/
def setCell (b : Board) (y x : Nat) (v : Cell) : Board :=
  b.set y ((b.getD y []).set x v)

/-- `TetrisGame` state (the GUI fields are out of scope).  `bag` and
`next_kind` record the bag randomizer; `lines_cleared` is set by `reset`
and never updated elsewhere in the source. -/
structure TetrisGame where
  board : Board
  score : Nat
  level : Nat
  lines_cleared : Nat
  paused : Bool
  game_over : Bool
  bag : List Kind
  next_kind : Kind
  current : Piece
deriving DecidableEq, Repr

/-- `all(r)`: every cell of the row is filled. -/
def rowFull (r : List Cell) : Bool := r.all fun c => c.isSome

/-- `TetrisGame.collides` (lines 140-149): a placement collides when some
cell is out of the horizontal range, at or below the bottom, or overlaps a
filled board cell; cells above the top row (negative y) are skipped. -/
def TetrisGame.collides (g : TetrisGame) (p : Piece) : Bool :=
  p.cells.any fun c =>
    let x := p.x + c.1
    let y := p.y + c.2
    if x < 0 ∨ (COLS : Int) ≤ x ∨ (ROWS : Int) ≤ y then true
    else if y < 0 then false
    else (cellAt g.board y.toNat x.toNat).isSome

/-- The translated piece `moved` built at line 152 of `try_move`. -/
def movedPiece (g : TetrisGame) (dx dy : Int) : Piece :=
  { kind := g.current.kind, x := g.current.x + dx, y := g.current.y + dy, r := g.current.r }

/-- `TetrisGame.try_move(dx, dy)` (lines 151-156): commit the translated
piece only when it does not collide. -/
def TetrisGame.try_move (g : TetrisGame) (dx dy : Int) : TetrisGame × Bool :=
  if g.collides (movedPiece g dx dy) = false then ({ g with current := movedPiece g dx dy }, true)
  else (g, false)

/-- The wall-kick offset list of `try_rotate` (lines 162-165). -/
def kicks : List (Int × Int) :=
  [(0, 0), (1, 0), (-1, 0), (0, -1), (2, 0), (-2, 0), (0, 1), (1, -1), (-1, -1)]

/-- The candidate `Piece(rotated.kind, rotated.x + ox, rotated.y + oy, rotated.r)`. -/
def kickPiece (rot : Piece) (o : Int × Int) : Piece :=
  { kind := rot.kind, x := rot.x + o.1, y := rot.y + o.2, r := rot.r }

/-- The kick search loop of `try_rotate`: the first offset whose candidate
does not collide, if any. -/
def TetrisGame.firstKick (g : TetrisGame) (rot : Piece) : List (Int × Int) → Option Piece
  | [] => none
  | o :: os =>
    if g.collides (kickPiece rot o) = false then some (kickPiece rot o)
    else g.firstKick rot os

/-- `TetrisGame.try_rotate` (lines 158-171): rotate clockwise, trying the
kick offsets in order; on success commit the first non-colliding
candidate, otherwise leave the piece unchanged. -/
def TetrisGame.try_rotate (g : TetrisGame) : TetrisGame × Bool :=
  match g.firstKick (g.current.rotated 1) kicks with
  | some t => ({ g with current := t }, true)
  | none => (g, false)

/-- `TetrisGame.take_from_bag` (lines 126-130): refill and shuffle when the
bag is empty, then `pop()` the last element.  `shuffle` stands for
`random.shuffle`; the `getLastD` default is unreachable because the
refilled bag has seven elements. -/
def take_from_bag (shuffle : List Kind → List Kind) (bag : List Kind) : Kind × List Kind :=
  let bag1 := if bag.isEmpty then shuffle allKinds else bag
  (bag1.getLastD Kind.I, bag1.dropLast)

/-- `TetrisGame.spawn_piece` (lines 132-138): promote the lookahead kind,
draw a new lookahead, place the new piece at (3, -2) rotation 0, and set
game over when it already collides. -/
def TetrisGame.spawn_piece (shuffle : List Kind → List Kind) (g : TetrisGame) : TetrisGame :=
  let kind := g.next_kind
  let drawn := take_from_bag shuffle g.bag
  let cur : Piece := { kind := kind, x := 3, y := -2, r := 0 }
  let g1 : TetrisGame := { g with next_kind := drawn.1, bag := drawn.2, current := cur }
  if g1.collides cur then { g1 with game_over := true } else g1

/-- The list comprehension of `clear_lines` (line 194): indices of the
rows whose cells are all filled, in increasing order. -/
def fullRows (b : Board) : List Nat :=
  ((b.enum).filter fun ir => rowFull ir.2).map fun ir => ir.1

/-- `TetrisGame.clear_lines` (lines 193-198), exactly as written: iterate
the full-row indices in reversed (descending) order, and for each one
`del board[i]` then `board.insert(0, empty row)`; return the count of
full rows found.  Note the inserted top row shifts all indices up by one
before the next deletion uses its stale index. -/
def clear_lines (b : Board) : Board × Nat :=
  let full := fullRows b
  let b1 := full.reverse.foldl (fun acc i => emptyRow :: acc.eraseIdx i) b
  (b1, full.length)

/-- The cell-transfer loop of `lock_piece` (lines 179-185), in list order:
on the first cell above the top row (y < 0) stop and report game over,
leaving the cells already written in place; otherwise write every cell. -/
def mergeCells (k : Kind) (px py : Int) : List (Int × Int) → Board → Board × Bool
  | [], b => (b, false)
  | c :: cs, b =>
    if py + c.2 < 0 then (b, true)
    else mergeCells k px py cs (setCell b (py + c.2).toNat (px + c.1).toNat (some k))

/-- The scoring dict `{1: 100, 2: 300, 3: 500, 4: 800}` of line 188.  The
lookup is guarded by `if cleared:`; keys outside 1..4 would raise a
`KeyError` in Python and are mapped to 0 here. -/
def clearBase : Nat → Nat
  | 1 => 100
  | 2 => 300
  | 3 => 500
  | 4 => 800
  | _ => 0

/-- `TetrisGame.lock_piece` (lines 178-191): transfer the piece cells into
the board (aborting into game over if a cell lies above the top row), then
clear lines; when at least one line cleared, add the table bonus and
recompute `level = score // 1000`; finally spawn the next piece. -/
def TetrisGame.lock_piece (shuffle : List Kind → List Kind) (g : TetrisGame) : TetrisGame :=
  match mergeCells g.current.kind g.current.x g.current.y g.current.cells g.board with
  | (b1, true) => { g with board := b1, game_over := true }
  | (b1, false) =>
    let cl := clear_lines b1
    let g1 : TetrisGame := { g with board := cl.1 }
    let g2 : TetrisGame :=
      if cl.2 ≠ 0 then
        let sc := g1.score + clearBase cl.2
        { g1 with score := sc, level := sc / 1000 }
      else g1
    g2.spawn_piece shuffle

/-- The `while self.try_move(0, 1): self.score += 2` loop of `hard_drop`
(lines 173-175), with the one successful step of `try_move` inlined. -/
def TetrisGame.dropLoop (g : TetrisGame) : TetrisGame :=
  if h : g.collides (movedPiece g 0 1) = false then
    TetrisGame.dropLoop { g with current := movedPiece g 0 1, score := g.score + 2 }
  else g
termination_by ((ROWS : Int) + 2 - g.current.y).toNat
decreasing_by
  have hsh : ∀ k : Kind, ∀ r ∈ List.range 4,
      (shapeList k).getD r [] ≠ [] ∧ ∀ c ∈ (shapeList k).getD r [], 0 ≤ c.2 ∧ c.2 ≤ 3 := by
    decide
  have hm4 : g.current.r % 4 ∈ List.range 4 :=
    List.mem_range.mpr (Nat.mod_lt _ (by omega))
  obtain ⟨hne, hnn⟩ := hsh g.current.kind _ hm4
  obtain ⟨c, hc⟩ := List.exists_mem_of_ne_nil _ hne
  rw [TetrisGame.collides, List.any_eq_false] at h
  have hcell := h c (by simpa [Piece.cells, movedPiece] using hc)
  have hy2 : 0 ≤ c.2 ∧ c.2 ≤ 3 := hnn c hc
  simp only [movedPiece] at hcell
  split at hcell
  · simp at hcell
  · rename_i hcond
    push_neg at hcond
    have hylt : g.current.y + 1 + c.2 < (ROWS : Int) := hcond.2.2
    show ((ROWS : Int) + 2 - (g.current.y + 1)).toNat < ((ROWS : Int) + 2 - g.current.y).toNat
    simp only [ROWS] at hylt ⊢
    omega

/-- `TetrisGame.hard_drop` (lines 173-176): drop to the floor, then lock. -/
def TetrisGame.hard_drop (shuffle : List Kind → List Kind) (g : TetrisGame) : TetrisGame :=
  (g.dropLoop).lock_piece shuffle

/-- `TetrisGame.reset` (lines 113-124): fresh board and counters, empty
bag, draw the lookahead (which refills and shuffles the bag), and spawn.
The placeholder piece is overwritten by `spawn_piece` as in the source,
where `self.current` first exists when `spawn_piece` assigns it. -/
def TetrisGame.reset (shuffle : List Kind → List Kind) : TetrisGame :=
  let g0 : TetrisGame :=
    { board := emptyBoard, score := 0, level := 0, lines_cleared := 0, paused := false,
      game_over := false, bag := [], next_kind := Kind.I,
      current := { kind := Kind.I, x := 3, y := -2, r := 0 } }
  let drawn := take_from_bag shuffle g0.bag
  let g1 : TetrisGame := { g0 with next_kind := drawn.1, bag := drawn.2 }
  g1.spawn_piece shuffle

/-- The key symbols handled by `on_key` (line 239-257). -/
inductive Key
  | left
  | right
  | down
  | up
  | space
  | pKey
  | rKey
  | other
deriving DecidableEq, Repr

/-- `TetrisGame.on_key` (lines 239-257): pause toggling and restart work in
every state; the movement keys (left, right, down, rotate, hard drop) are
handled only when neither paused nor game over. -/
def TetrisGame.on_key (shuffle : List Kind → List Kind) (g : TetrisGame) (k : Key) : TetrisGame :=
  match k with
  | Key.pKey => { g with paused := !g.paused }
  | Key.rKey => TetrisGame.reset shuffle
  | k1 =>
    if g.paused = false ∧ g.game_over = false then
      match k1 with
      | Key.left => (g.try_move (-1) 0).1
      | Key.right => (g.try_move 1 0).1
      | Key.down =>
        let g1 := (g.try_move 0 1).1
        { g1 with score := g1.score + 1 }
      | Key.up => (g.try_rotate).1
      | Key.space => g.hard_drop shuffle
      | _ => g
    else g

/-- The state update of one `game_loop` iteration (lines 259-267).  `due`
stands for the elapsed-interval test `(now - last_tick) * 1000 >= max(80,
800 - level * 55)`; when not paused, not game over, and due, advance the
piece one row or lock it. -/
def TetrisGame.tick (shuffle : List Kind → List Kind) (g : TetrisGame) (due : Bool) : TetrisGame :=
  if g.paused = false ∧ g.game_over = false ∧ due = true then
    let step := g.try_move 0 1
    if step.2 then step.1 else g.lock_piece shuffle
  else g

/-! ## Concrete instances used by the claim checks -/

/-- An open manager on port COM3 (used for the write-fault analysis). -/
def mOpenA : SerialManager :=
  { ser := some { port := "COM3", is_open := true }, stopSet := false, rxAlive := true }

/-- A send in which the write raises and the automatic reopen succeeds. -/
def wFaultA : SendWorld :=
  { writeResult := some Fault.writeFault, flushResult := none, reopenResult := none }

/-- An open manager on port COM5 (used for the guard-order analysis). -/
def mOpenB : SerialManager :=
  { ser := some { port := "COM5", is_open := true }, stopSet := false, rxAlive := true }

/-- A fault-free send. -/
def wNone : SendWorld := { writeResult := none, flushResult := none, reopenResult := none }

/-- An open manager on port COM7 (used for the double-open check). -/
def mOpenE : SerialManager :=
  { ser := some { port := "COM7", is_open := true }, stopSet := true, rxAlive := true }

/-- A board row filled entirely with O cells. -/
def fullRowO : List Cell := List.replicate COLS (some Kind.O)

/-- A board whose two bottom rows are full, everything else empty. -/
def cB : Board := List.replicate 18 emptyRow ++ [fullRowO, fullRowO]

/-- A row full except for its leftmost cell. -/
def rowGap : List Cell := none :: List.replicate 9 (some Kind.O)

/-- A board whose two bottom rows are full except for column 0. -/
def b7 : Board := List.replicate 18 emptyRow ++ [rowGap, rowGap]

/-- A game about to lock a vertical I piece into column 0, completing the
two bottom rows of `b7` simultaneously. -/
def g7 : TetrisGame :=
  { board := b7, score := 0, level := 0, lines_cleared := 0, paused := false, game_over := false,
    bag := [Kind.O], next_kind := Kind.O,
    current := { kind := Kind.I, x := -2, y := 16, r := 1 } }

/-- A freshly spawned game: empty board, current piece at the spawn
position (3, -2), whose occupied cells lie above the visible top row. -/
def g8 : TetrisGame :=
  { board := emptyBoard, score := 0, level := 0, lines_cleared := 0, paused := false,
    game_over := false, bag := [Kind.O], next_kind := Kind.O,
    current := { kind := Kind.I, x := 3, y := -2, r := 0 } }

/-- A game whose current piece has cells above the visible top row (used
for the lock-above-top check). -/
def gW9 : TetrisGame :=
  { board := emptyBoard, score := 5, level := 0, lines_cleared := 0, paused := false,
    game_over := false, bag := [Kind.T], next_kind := Kind.S,
    current := { kind := Kind.I, x := 3, y := -2, r := 0 } }

/-- A game already in the terminal game-over state. -/
def gOver : TetrisGame :=
  { board := emptyBoard, score := 7, level := 0, lines_cleared := 0, paused := false,
    game_over := true, bag := [Kind.T], next_kind := Kind.S,
    current := { kind := Kind.J, x := 3, y := 5, r := 0 } }

/-! ## Helper lemmas -/

theorem utf8Encode_append (a b : List Char) :
    utf8Encode (a ++ b) = utf8Encode a ++ utf8Encode b := by
  simp [utf8Encode]

theorem utf8EncodeChar_ne_nil (c : Char) : utf8EncodeChar c ≠ [] := by
  unfold utf8EncodeChar
  split_ifs <;> simp

theorem utf8EncodeChar_getLast_13 (c : Char)
    (h : (utf8EncodeChar c).getLast? = some 13) : c = '\r' := by
  unfold utf8EncodeChar at h
  split_ifs at h with h1 h2 h3
  · simp only [List.getLast?_singleton, Option.some.injEq] at h
    have h4 := Char.ofNat_toNat c
    rw [h] at h4
    rw [← h4]
  · simp only [List.getLast?_cons_cons, List.getLast?_singleton, Option.some.injEq] at h
    omega
  · simp only [List.getLast?_cons_cons, List.getLast?_singleton, Option.some.injEq] at h
    omega
  · simp only [List.getLast?_cons_cons, List.getLast?_singleton, Option.some.injEq] at h
    omega

theorem utf8Encode_getLast_ne (text : List Char) (h : endsWithCR text = false) :
    (utf8Encode text).getLast? ≠ some 13 := by
  rcases List.eq_nil_or_concat text with rfl | ⟨t, c, rfl⟩
  · simp [utf8Encode]
  · rw [List.concat_eq_append] at h ⊢
    have hc : ¬ c = '\r' := by
      simpa [endsWithCR, List.getLast?_concat] using h
    rw [utf8Encode_append, List.getLast?_append_of_ne_nil _ (by
      simp [utf8Encode, utf8EncodeChar_ne_nil c])]
    intro hl
    have : (utf8EncodeChar c).getLast? = some 13 := by
      simpa [utf8Encode, List.getLast?_append_of_ne_nil, utf8EncodeChar_ne_nil c] using hl
    exact hc (utf8EncodeChar_getLast_13 c this)

theorem trailingCount_append_one (l : List Nat) (h : l.getLast? ≠ some 13) :
    trailingCount 13 (l ++ [13]) = 1 := by
  unfold trailingCount
  rw [List.reverse_concat, List.takeWhile_cons]
  simp only [beq_self_eq_true, if_true]
  have hz : List.takeWhile (fun x => x == 13) l.reverse = [] := by
    cases hr : l.reverse with
    | nil => rfl
    | cons x xs =>
      have hx : l.getLast? = some x := by
        rw [← List.head?_reverse, hr]
        rfl
      have : ¬ x = 13 := fun hx13 => h (by rw [hx, hx13])
      simp [List.takeWhile_cons, this]
  rw [hz]
  rfl

/-! ## Claim C1 (write-fault recovery reporting) -/

/-- C1: the claim states that when a `send` hits a transport fault and the
automatic reopen succeeds, the caller receives the recoverable
`TransportError` and only a failed reopen yields the distinct
`ReconnectFailed` error.  The code disagrees with itself here: the
deliberate re-raise of the original fault (line 121, commented as passing
the exception to the caller) is caught by its own inner `except` and
re-wrapped in the line-124 reconnect-failed message.  This theorem
evaluates the code at the failing input: write fault, reopen succeeds —
the close/cooldown/single-reopen protocol runs and leaves the manager
open on the same port, yet the surfaced error is the `reconnectFailed`
wrapper, not the bare recoverable fault. -/
theorem c1_reconnect_misreport :
    (mOpenA.send ['h', 'i'] "ETTR" wFaultA).2.1 =
        some (SerialErr.reconnectFailed (SerialErr.writeFailReconnected Fault.writeFault)) ∧
    (∀ f : Fault, (mOpenA.send ['h', 'i'] "ETTR" wFaultA).2.1 ≠
        some (SerialErr.writeFailReconnected f)) ∧
    (mOpenA.send ['h', 'i'] "ETTR" wFaultA).1 =
        { ser := some { port := "COM3", is_open := true }, stopSet := false, rxAlive := true } ∧
    (mOpenA.send ['h', 'i'] "ETTR" wFaultA).2.2 =
        [Ev.acquire, Ev.write (sendPayload "ETTR" ['h', 'i']),
         Ev.closeEv, Ev.cooldown, Ev.reopen, Ev.release] := by
  refine ⟨rfl, ?_, rfl, rfl⟩
  intro f
  cases f <;> decide

/-! ## Claim C2 (guard vs settle delay) -/

/-- C2 counterexample: the claim states the guard is released before the
settle delay.  In the code the `time.sleep(delay)` sits inside the
`with self._lock:` block, so on a fault-free send the settle event occurs
strictly before the release event: the release index in the event trace is
4 and the settle index is 3, refuting release-before-settle. -/
theorem c2_lock_held_during_delay :
    (mOpenB.send ['h'] "ETTR" wNone).2.2 =
        [Ev.acquire, Ev.write (sendPayload "ETTR" ['h']), Ev.flush, Ev.settle 300, Ev.release] ∧
    ¬ (List.indexOf Ev.release (mOpenB.send ['h'] "ETTR" wNone).2.2 <
        List.indexOf (Ev.settle 300) (mOpenB.send ['h'] "ETTR" wNone).2.2) := by
  constructor
  · rfl
  · decide

/-- C2 amended: on every fault-free send on an open manager, the guard is
held across the write, the flush, and the model-dependent settle delay,
and is released only after the delay (release is the final event, settle
the one before it); the state is unchanged and no error is reported. -/
theorem c2_amended (m : SerialManager) (text : List Char) (model : String) (w : SendWorld)
    (hm : m.is_open = true) (hw : w.writeResult = none) (hf : w.flushResult = none) :
    m.send text model w =
      (m, none, [Ev.acquire, Ev.write (sendPayload model text), Ev.flush,
                 Ev.settle (delayFor model), Ev.release]) ∧
    (m.send text model w).2.2.get? 3 = some (Ev.settle (delayFor model)) ∧
    (m.send text model w).2.2.get? 4 = some Ev.release := by
  have h1 : m.send text model w =
      (m, none, [Ev.acquire, Ev.write (sendPayload model text), Ev.flush,
                 Ev.settle (delayFor model), Ev.release]) := by
    simp [SerialManager.send, hm, hw, hf]
  refine ⟨h1, ?_, ?_⟩ <;> rw [h1] <;> rfl

/-- C2 amended, witnessed at a concrete open manager and fault-free send. -/
theorem c2_amended_witness :
    mOpenB.send ['h'] "ETTR" wNone =
      (mOpenB, none, [Ev.acquire, Ev.write (sendPayload "ETTR" ['h']), Ev.flush,
                      Ev.settle (delayFor "ETTR"), Ev.release]) ∧
    (mOpenB.send ['h'] "ETTR" wNone).2.2.get? 3 = some (Ev.settle (delayFor "ETTR")) ∧
    (mOpenB.send ['h'] "ETTR" wNone).2.2.get? 4 = some Ev.release :=
  c2_amended mOpenB ['h'] "ETTR" wNone rfl rfl rfl

/-! ## Claim C3 (terminator handling) -/

/-- C3: for the UP30 model, text lacking the trailing carriage return is
encoded with exactly one appended (the payload is the UTF-8 encoding of
the text followed by the single byte 13, and the trailing run of byte 13
has length exactly one); text already ending in the terminator is encoded
unmodified; every other model transmits the text unmodified. -/
theorem c3_terminator (model : String) (text : List Char) :
    (model = "UP30" → endsWithCR text = false →
      sendPayload model text = utf8Encode text ++ [13] ∧
      trailingCount 13 (sendPayload model text) = 1) ∧
    (model = "UP30" → endsWithCR text = true → sendPayload model text = utf8Encode text) ∧
    (model ≠ "UP30" → sendPayload model text = utf8Encode text) := by
  refine ⟨?_, ?_, ?_⟩
  · intro hm he
    have hp : sendPayload model text = utf8Encode text ++ [13] := by
      rw [sendPayload, addTerminator, if_pos hm, if_neg (by simp [he]), utf8Encode_append]
      rfl
    exact ⟨hp, by rw [hp]; exact trailingCount_append_one _ (utf8Encode_getLast_ne text he)⟩
  · intro hm he
    rw [sendPayload, addTerminator, if_pos hm, if_pos (by simp [he])]
  · intro hm
    rw [sendPayload, addTerminator, if_neg hm]

/-- C3 witnessed at the UP30 model and a text lacking the terminator. -/
theorem c3_terminator_witness :
    sendPayload "UP30" ['h'] = utf8Encode ['h'] ++ [13] ∧
    trailingCount 13 (sendPayload "UP30" ['h']) = 1 :=
  (c3_terminator "UP30" ['h']).1 rfl (by decide)

/-! ## Claim C5 (double open) -/

/-- C5: opening while a handle is already open fails with the
already-open error and returns the state completely untouched; and an
open-error (the transport-level failure of the underlying constructor) is
reported only when no handle is open and the constructor itself raised
that fault. -/
theorem c5_open_guard (m : SerialManager) (port : String) (ctor : Option Fault) :
    (m.is_open = true → m.openPort port ctor = (m, some SerialErr.alreadyOpen)) ∧
    (∀ f : Fault, (m.openPort port ctor).2 = some (SerialErr.openError f) →
      m.is_open = false ∧ ctor = some f) := by
  constructor
  · intro h
    simp [SerialManager.openPort, h]
  · intro f hf
    by_cases h : m.is_open = true
    · simp [SerialManager.openPort, h] at hf
    · have h0 : m.is_open = false := by
        revert h
        cases m.is_open <;> simp
      cases ctor with
      | none => simp [SerialManager.openPort, h0] at hf
      | some f1 =>
        simp only [SerialManager.openPort, h0, Bool.false_eq_true, if_false,
          Option.some.injEq, SerialErr.openError.injEq] at hf
        exact ⟨h0, by rw [hf]⟩

/-- C5 witnessed: a second open on an already-open manager fails with the
already-open error and leaves the state untouched. -/
theorem c5_open_guard_witness :
    mOpenE.openPort "COM8" none = (mOpenE, some SerialErr.alreadyOpen) :=
  (c5_open_guard mOpenE "COM8" none).1 rfl

/-! ## Claim C6 (close idempotent and infallible) -/

/-- C6: `close` never reports an error (close-time faults of the
underlying handle are swallowed), always leaves the manager with no
handle, and calling it again on the already-closed result is an exact
no-op that again reports no error — for every starting state and every
behaviour of the underlying close. -/
theorem c6_close_idempotent (m : SerialManager) (e1 e2 : Option Fault) :
    (m.close e1).2 = none ∧ ((m.close e1).1).ser = none ∧
    ((m.close e1).1).close e2 = ((m.close e1).1, none) := by
  rcases m with ⟨ser, st, rx⟩
  cases ser <;> cases e1 <;> cases e2 <;> exact ⟨rfl, rfl, rfl⟩

/-! ## Claim C4 helper lemmas: properties of the line splitter -/

theorem splitNL_ne_nil (l : List Nat) : splitNL l ≠ [] := by
  induction l with
  | nil => simp [splitNL]
  | cons b rest ih =>
    simp only [splitNL]
    split
    · simp
    · rcases hsp : splitNL rest with _ | ⟨h1, t1⟩ <;> simp [hsp]

theorem splitNL_of_not_mem (l : List Nat) (h : 10 ∉ l) : splitNL l = [l] := by
  induction l with
  | nil => rfl
  | cons b rest ih =>
    simp only [List.mem_cons, not_or] at h
    have hb : ¬ b = 10 := fun hb => h.1 hb.symm
    simp [splitNL, hb, ih h.2]

theorem splitNL_getLastD (l : List Nat) : 10 ∉ (splitNL l).getLastD [] := by
  induction l with
  | nil => simp [splitNL]
  | cons b rest ih =>
    simp only [splitNL]
    split
    · rcases hsp : splitNL rest with _ | ⟨h1, t1⟩
      · exact absurd hsp (splitNL_ne_nil rest)
      · rw [hsp] at ih
        simpa [List.getLastD_eq_getLast?, List.getLast?_cons_cons] using ih
    · rename_i hb
      rcases hsp : splitNL rest with _ | ⟨h1, t1⟩
      · exact absurd hsp (splitNL_ne_nil rest)
      · rw [hsp] at ih
        cases t1 with
        | nil =>
          simp only [List.getLastD_eq_getLast?, List.getLast?_singleton, Option.getD_some] at ih
          simp [List.getLastD_eq_getLast?, List.mem_cons, not_or]
          exact ⟨fun h10 => hb h10.symm, ih⟩
        | cons t1h t1t =>
          simpa [List.getLastD_eq_getLast?, List.getLast?_cons_cons] using ih

theorem splitNL_cons_10 (l : List Nat) : splitNL (10 :: l) = [] :: splitNL l := by
  simp [splitNL]

theorem splitNL_cons_ne (x : Nat) (hx : ¬ x = 10) (l : List Nat) (h1 : List Nat)
    (t1 : List (List Nat)) (h : splitNL l = h1 :: t1) :
    splitNL (x :: l) = (x :: h1) :: t1 := by
  simp [splitNL, hx, h]

theorem splitNL_append (a b : List Nat) :
    splitNL (a ++ b) =
      (splitNL a).dropLast ++ consHead ((splitNL a).getLastD []) (splitNL b) := by
  induction a with
  | nil =>
    rcases hsp : splitNL b with _ | ⟨h1, t1⟩
    · exact absurd hsp (splitNL_ne_nil b)
    · simp [splitNL, consHead, hsp]
  | cons x a ih =>
    rcases hsp : splitNL a with _ | ⟨h1, t1⟩
    · exact absurd hsp (splitNL_ne_nil a)
    · rw [hsp] at ih
      by_cases hx : x = 10
      · subst hx
        rw [List.cons_append, splitNL_cons_10, ih, splitNL_cons_10, hsp]
        cases t1 with
        | nil => simp [consHead, List.getLastD_eq_getLast?, List.dropLast]
        | cons p q =>
          simp [List.getLastD_eq_getLast?, List.getLast?_cons_cons, List.dropLast]
      · cases t1 with
        | nil =>
          rcases hsb : splitNL b with _ | ⟨hb1, tb1⟩
          · exact absurd hsb (splitNL_ne_nil b)
          · rw [hsb] at ih
            simp only [List.dropLast_single, List.nil_append, consHead,
              List.getLastD_eq_getLast?, List.getLast?_singleton, Option.getD_some] at ih
            rw [List.cons_append, splitNL_cons_ne x hx _ _ _ ih,
              splitNL_cons_ne x hx a h1 [] hsp]
            simp [consHead, List.getLastD_eq_getLast?]
        | cons p q =>
          have ih2 : splitNL (a ++ b) =
              h1 :: ((p :: q).dropLast ++
                consHead ((p :: q).getLastD []) (splitNL b)) := by
            simpa [List.dropLast, List.getLastD_eq_getLast?,
              List.getLast?_cons_cons] using ih
          rw [List.cons_append, splitNL_cons_ne x hx _ _ _ ih2,
            splitNL_cons_ne x hx a h1 (p :: q) hsp]
          simp [List.dropLast, List.getLastD_eq_getLast?, List.getLast?_cons_cons]

theorem dropLast_append_ne_nil {α : Type} (A C : List α) (h : C ≠ []) :
    (A ++ C).dropLast = A ++ C.dropLast :=
  List.dropLast_append_of_ne_nil A h

theorem getLastD_append_ne_nil (A C : List (List Nat)) (h : C ≠ []) :
    (A ++ C).getLastD [] = C.getLastD [] := by
  rw [List.getLastD_eq_getLast?, List.getLastD_eq_getLast?,
    List.getLast?_append_of_ne_nil A h]

theorem consHead_ne_nil (x : List Nat) (s : List (List Nat)) : consHead x s ≠ [] := by
  cases s <;> simp [consHead]

/-- The buffer-processing step is characterised by the splitter: starting
from an accumulator without a line feed, it delivers the stripped non-final
pieces of the split of accumulator plus chunk, and retains the final
piece. -/
theorem processChunk_eq (buffer data : List Nat) (h : 10 ∉ buffer) :
    processChunk buffer data =
      (((splitNL (buffer ++ data)).dropLast).map stripBytes,
        (splitNL (buffer ++ data)).getLastD []) := by
  unfold processChunk
  split
  · rename_i hd
    subst hd
    simp [splitNL_of_not_mem _ h]
  · split
    · rfl
    · rename_i hmem
      rw [splitNL_of_not_mem _ hmem]
      rfl

/-- The reception loop delivers, over any sequence of chunks, exactly the
stripped complete lines of the concatenated stream, in order, and retains
the trailing incomplete fragment. -/
theorem rxRun_eq (cs : List (List Nat)) (buf : List Nat) (h : 10 ∉ buf) :
    rxRun buf cs =
      (((splitNL (buf ++ cs.flatten)).dropLast).map stripBytes,
        (splitNL (buf ++ cs.flatten)).getLastD []) := by
  induction cs generalizing buf with
  | nil => simp [rxRun, splitNL_of_not_mem _ h]
  | cons c cs ih =>
    simp only [rxRun, processChunk_eq buf c h]
    rw [ih _ (splitNL_getLastD (buf ++ c))]
    have hL : splitNL ((splitNL (buf ++ c)).getLastD [] ++ cs.flatten) =
        consHead ((splitNL (buf ++ c)).getLastD []) (splitNL cs.flatten) := by
      rw [splitNL_append, splitNL_of_not_mem _ (splitNL_getLastD (buf ++ c))]
      rfl
    have happ : splitNL (buf ++ (c :: cs).flatten) =
        (splitNL (buf ++ c)).dropLast ++
          consHead ((splitNL (buf ++ c)).getLastD []) (splitNL cs.flatten) := by
      rw [List.flatten_cons, ← List.append_assoc, splitNL_append (buf ++ c) cs.flatten]
    rw [happ, hL]
    simp only [Prod.mk.injEq]
    refine ⟨?_, ?_⟩
    · rw [dropLast_append_ne_nil _ _ (consHead_ne_nil _ _), List.map_append]
    · rw [getLastD_append_ne_nil _ _ (consHead_ne_nil _ _)]

/-! ## Claim C4 (line framing of the reception loop) -/

/-- C4: over every sequence of received byte chunks, the reception loop
delivers exactly the stripped complete lines of the accumulated stream
(the non-final pieces of the split on the line-feed byte), in arrival
order, and retains only the trailing incomplete fragment, which never
contains a line feed; in particular the stream "OK\nREADY\nPART" yields
exactly the two lines "OK" then "READY" and retains "PART". -/
theorem c4_line_framing :
    (∀ cs : List (List Nat),
        rxRun [] cs =
          (((splitNL cs.flatten).dropLast).map stripBytes, (splitNL cs.flatten).getLastD []) ∧
        10 ∉ (rxRun [] cs).2) ∧
    rxRun [] [[79, 75, 10, 82, 69, 65, 68, 89, 10, 80, 65, 82, 84]] =
      ([[79, 75], [82, 69, 65, 68, 89]], [80, 65, 82, 84]) := by
  constructor
  · intro cs
    have h := rxRun_eq cs [] (by simp)
    simp only [List.nil_append] at h
    refine ⟨h, ?_⟩
    rw [h]
    exact splitNL_getLastD _
  · decide

/-! ## Tetris helper lemmas -/

theorem mergeCells_snd_true (k : Kind) (px py : Int) (cs : List (Int × Int)) (b : Board)
    (h : ∃ c ∈ cs, py + c.2 < 0) : (mergeCells k px py cs b).2 = true := by
  induction cs generalizing b with
  | nil => simp at h
  | cons c cs ih =>
    simp only [mergeCells]
    split
    · rfl
    · rename_i hneg
      obtain ⟨c1, hc1, hy⟩ := h
      rcases List.mem_cons.mp hc1 with rfl | h2
      · exact absurd hy hneg
      · exact ih _ ⟨c1, h2, hy⟩

theorem collides_eq_false_iff (g : TetrisGame) (p : Piece) :
    g.collides p = false ↔
      ∀ c ∈ p.cells, 0 ≤ p.x + c.1 ∧ p.x + c.1 < (COLS : Int) ∧
        p.y + c.2 < (ROWS : Int) ∧
        (0 ≤ p.y + c.2 → cellAt g.board (p.y + c.2).toNat (p.x + c.1).toNat = none) := by
  rw [TetrisGame.collides, List.any_eq_false]
  constructor
  · intro h c hc
    have hcell := h c hc
    simp only [Bool.not_eq_true] at hcell
    split at hcell
    · simp at hcell
    · rename_i hcond
      push_neg at hcond
      obtain ⟨hx0, hxc, hyr⟩ := hcond
      refine ⟨hx0, hxc, hyr, ?_⟩
      intro hy0
      split at hcell
      · rename_i hyn
        omega
      · cases hq : cellAt g.board (p.y + c.2).toNat (p.x + c.1).toNat with
        | none => rfl
        | some v => rw [hq] at hcell; simp at hcell
  · intro h c hc
    obtain ⟨hx0, hxc, hyr, hcell⟩ := h c hc
    simp only [Bool.not_eq_true]
    split
    · rename_i hcond
      rcases hcond with h1 | h2 | h3 <;> omega
    · split
      · rfl
      · rename_i hyneg
        push_neg at hyneg
        rw [hcell hyneg]
        rfl

theorem try_move_fail (g : TetrisGame) (dx dy : Int) (h : (g.try_move dx dy).2 = false) :
    (g.try_move dx dy).1 = g := by
  by_cases hc : g.collides (movedPiece g dx dy) = false
  · rw [TetrisGame.try_move] at h
    simp [hc] at h
  · rw [TetrisGame.try_move]
    simp [hc]

theorem try_move_cases (g : TetrisGame) (dx dy : Int) (h : (g.try_move dx dy).2 = true) :
    g.try_move dx dy = ({ g with current := movedPiece g dx dy }, true) ∧
    g.collides (movedPiece g dx dy) = false := by
  by_cases hc : g.collides (movedPiece g dx dy) = false
  · exact ⟨by simp [TetrisGame.try_move, hc], hc⟩
  · exfalso
    rw [TetrisGame.try_move] at h
    simp [hc] at h

theorem firstKick_some_spec (g : TetrisGame) (rot : Piece) (os : List (Int × Int)) (t : Piece)
    (h : g.firstKick rot os = some t) :
    g.collides t = false ∧
      ∃ pre o post, os = pre ++ o :: post ∧ t = kickPiece rot o ∧
        ∀ o2 ∈ pre, g.collides (kickPiece rot o2) = true := by
  induction os with
  | nil => simp [TetrisGame.firstKick] at h
  | cons o os ih =>
    rw [TetrisGame.firstKick] at h
    split at h
    · rename_i hc
      injection h with h2
      subst h2
      exact ⟨hc, [], o, os, rfl, rfl, by simp⟩
    · rename_i hc
      obtain ⟨hcol, pre, o1, post, heq, ht, hpre⟩ := ih h
      refine ⟨hcol, o :: pre, o1, post, by rw [heq]; rfl, ht, ?_⟩
      intro o2 ho2
      rcases List.mem_cons.mp ho2 with rfl | h2
      · cases hb : g.collides (kickPiece rot o2) with
        | false => exact absurd hb hc
        | true => rfl
      · exact hpre o2 h2

theorem eraseIdx_replicate {α : Type} (x : α) (k i : Nat) (h : i < k) :
    (List.replicate k x).eraseIdx i = List.replicate (k - 1) x := by
  induction k generalizing i with
  | zero => omega
  | succ k ih =>
    cases i with
    | zero => simp [List.replicate_succ, List.eraseIdx]
    | succ i =>
      simp only [List.replicate_succ, List.eraseIdx]
      rw [ih i (by omega)]
      cases k with
      | zero => omega
      | succ k2 => simp [List.replicate_succ]

theorem clearFold_spec (b : Board) (is : List Nat) :
    ∀ (acc s : Board), (∀ i ∈ is, i < b.length) → s.Sublist b →
      acc = List.replicate (b.length - s.length) emptyRow ++ s →
      ∃ s2 : Board, s2.Sublist b ∧
        is.foldl (fun acc i => emptyRow :: acc.eraseIdx i) acc =
          List.replicate (b.length - s2.length) emptyRow ++ s2 := by
  induction is with
  | nil =>
    intro acc s hmem hs hacc
    exact ⟨s, hs, by simpa using hacc⟩
  | cons i is ih =>
    intro acc s hmem hs hacc
    have hib : i < b.length := hmem i (List.mem_cons_self i is)
    have hslen : s.length ≤ b.length := List.Sublist.length_le hs
    by_cases hik : i < b.length - s.length
    · have he : acc.eraseIdx i = List.replicate (b.length - s.length - 1) emptyRow ++ s := by
        rw [hacc, List.eraseIdx_append_of_lt_length (by simpa using hik) s,
          eraseIdx_replicate _ _ _ hik]
      have hstep : (emptyRow :: acc.eraseIdx i) =
          List.replicate (b.length - s.length) emptyRow ++ s := by
        rw [he]
        have hn : b.length - s.length = (b.length - s.length - 1) + 1 := by omega
        rw [hn, List.replicate_succ]
        rfl
      have := ih (emptyRow :: acc.eraseIdx i) s
        (fun j hj => hmem j (List.mem_cons_of_mem _ hj)) hs hstep
      simpa [List.foldl_cons] using this
    · push_neg at hik
      have hj : i - (b.length - s.length) < s.length := by omega
      have he : acc.eraseIdx i =
          List.replicate (b.length - s.length) emptyRow ++
            s.eraseIdx (i - (b.length - s.length)) := by
        rw [hacc, List.eraseIdx_append_of_length_le (by simpa using hik) s]
        simp
      have hs2 : (s.eraseIdx (i - (b.length - s.length))).Sublist b :=
        (List.eraseIdx_sublist s _).trans hs
      have hlen2 : (s.eraseIdx (i - (b.length - s.length))).length = s.length - 1 := by
        rw [List.length_eraseIdx]
        simp [hj]
      have hstep : (emptyRow :: acc.eraseIdx i) =
          List.replicate
            (b.length - (s.eraseIdx (i - (b.length - s.length))).length) emptyRow ++
            s.eraseIdx (i - (b.length - s.length)) := by
        rw [he, hlen2]
        have hn : b.length - (s.length - 1) = (b.length - s.length) + 1 := by omega
        rw [hn, List.replicate_succ]
        rfl
      have := ih (emptyRow :: acc.eraseIdx i) (s.eraseIdx (i - (b.length - s.length)))
        (fun j hj2 => hmem j (List.mem_cons_of_mem _ hj2)) hs2 hstep
      simpa [List.foldl_cons] using this

theorem enumFrom_filter_length (q : List Cell → Bool) (b : Board) :
    ∀ n, ((List.enumFrom n b).filter fun ir => q ir.2).length = (b.filter q).length := by
  induction b with
  | nil => intro n; rfl
  | cons r b ih =>
    intro n
    by_cases hq : q r
    · simp [List.enumFrom, List.filter_cons, hq, ih (n + 1)]
    · simp [List.enumFrom, List.filter_cons, hq, ih (n + 1)]

theorem mem_enumFrom_lt (b : Board) : ∀ (n : Nat) (p : Nat × List Cell),
    p ∈ List.enumFrom n b → p.1 < n + b.length := by
  induction b with
  | nil => intro n p h; simp [List.enumFrom] at h
  | cons r b ih =>
    intro n p h
    simp only [List.enumFrom, List.mem_cons] at h
    rcases h with rfl | h
    · show n < n + (r :: b).length
      simp only [List.length_cons]
      omega
    · have := ih (n + 1) p h
      simp only [List.length_cons]
      omega

theorem fullRows_lt (b : Board) (i : Nat) (h : i ∈ fullRows b) : i < b.length := by
  simp only [fullRows, List.mem_map, List.mem_filter] at h
  obtain ⟨p, ⟨hp, _⟩, rfl⟩ := h
  have := mem_enumFrom_lt b 0 p (by simpa [List.enum_eq_enumFrom] using hp)
  omega

theorem fullRows_length (b : Board) : (fullRows b).length = (b.filter rowFull).length := by
  rw [fullRows, List.length_map, List.enum_eq_enumFrom, enumFrom_filter_length]

/-! ## Claim C7 (line clear, scoring, level) -/

/-- C7: the claim states that locking removes every full row, shifts the
rest down, inserts the same number of empty rows at the top, and awards
the table bonus.  The deletion loop of `clear_lines` uses descending
original indices, but each `insert(0, ...)` shifts every index up by one
before the next stale index is used, so with two or more simultaneously
full rows the wrong rows are deleted.  Evaluated at the failing input
(rows 18 and 19 completed simultaneously by a vertical I piece): the lock
reports 2 cleared rows and awards 300 points, yet the resulting board
still contains one full row — row 18 survived while the non-full row 17
was deleted, contradicting the claim that every full row is removed. -/
theorem c7_clear_lines_bug :
    ((g7.lock_piece (fun l => l)).board.filter rowFull).length = 1 ∧
    (g7.lock_piece (fun l => l)).score = 300 ∧
    (g7.lock_piece (fun l => l)).level = 0 ∧
    (g7.lock_piece (fun l => l)).game_over = false := by
  decide

/-! ## Claim C8 (collision enforcement before commits) -/

/-- C8 counterexample: the claim states committed placements never lie
outside the grid bounds.  On the freshly spawned game `g8` the move right
is committed (the collision check passes), yet the committed piece
occupies the cell (4, -1), whose row index is negative — outside the grid
bounds.  The collision check deliberately permits cells above the visible
top row, so the claim as stated is false. -/
theorem c8_above_top_committed :
    (g8.try_move 1 0).2 = true ∧
    (g8.try_move 1 0).1.current = { kind := Kind.I, x := 4, y := -2, r := 0 } ∧
    (0, 1) ∈ (g8.try_move 1 0).1.current.cells ∧
    (g8.try_move 1 0).1.current.y + 1 < 0 := by
  decide

/-- C8 amended: every move commits only when the collision check on the
candidate passes and otherwise leaves the state unchanged; a committed
move yields exactly the translated piece on the unchanged board; every
rotation commits the first kick candidate that passes the collision check
(all earlier kick candidates collide) and otherwise leaves the state
unchanged; and passing the collision check means precisely: every
occupied cell is inside the horizontal bounds, above the bottom row, and
— when not above the visible top row — lies on an empty board cell.
Cells above the visible top row (negative row index) are permitted. -/
theorem c8_amended (g : TetrisGame) (dx dy : Int) :
    ((g.try_move dx dy).2 = false → (g.try_move dx dy).1 = g) ∧
    ((g.try_move dx dy).2 = true →
      g.collides (g.try_move dx dy).1.current = false ∧
      (g.try_move dx dy).1.current = movedPiece g dx dy ∧
      (g.try_move dx dy).1.board = g.board) ∧
    ((g.try_rotate).2 = false → (g.try_rotate).1 = g) ∧
    ((g.try_rotate).2 = true →
      g.collides (g.try_rotate).1.current = false ∧
      ∃ pre o post, kicks = pre ++ o :: post ∧
        (g.try_rotate).1.current = kickPiece (g.current.rotated 1) o ∧
        ∀ o2 ∈ pre, g.collides (kickPiece (g.current.rotated 1) o2) = true) ∧
    (∀ p : Piece, g.collides p = false ↔
      ∀ c ∈ p.cells, 0 ≤ p.x + c.1 ∧ p.x + c.1 < (COLS : Int) ∧
        p.y + c.2 < (ROWS : Int) ∧
        (0 ≤ p.y + c.2 → cellAt g.board (p.y + c.2).toNat (p.x + c.1).toNat = none)) := by
  refine ⟨try_move_fail g dx dy, ?_, ?_, ?_, fun p => collides_eq_false_iff g p⟩
  · intro h
    obtain ⟨heq, hc⟩ := try_move_cases g dx dy h
    rw [heq]
    exact ⟨hc, rfl, rfl⟩
  · intro h
    rw [TetrisGame.try_rotate] at h ⊢
    rcases hfk : g.firstKick (g.current.rotated 1) kicks with _ | t
    · rfl
    · rw [hfk] at h
      simp at h
  · intro h
    rw [TetrisGame.try_rotate] at h ⊢
    rcases hfk : g.firstKick (g.current.rotated 1) kicks with _ | t
    · rw [hfk] at h
      simp at h
    · obtain ⟨hcol, pre, o, post, heq, ht, hpre⟩ := firstKick_some_spec g _ kicks t hfk
      exact ⟨hcol, pre, o, post, heq, ht, hpre⟩

/-- C8 amended, witnessed: the committed right move on `g8` satisfies the
collision check. -/
theorem c8_amended_witness :
    g8.collides (g8.try_move 1 0).1.current = false :=
  ((c8_amended g8 1 0).2.1 (by decide)).1

/-! ## Claim C9 (game over on lock above top; input frozen) -/

/-- C9: locking a piece any of whose cells lies above the visible top row
sets the terminal game-over flag; and in the game-over state every
movement key (left, right, down, rotate, hard drop) leaves the state
completely unchanged, as does the gravity tick. -/
theorem c9_game_over :
    (∀ (shuffle : List Kind → List Kind) (g : TetrisGame),
      (∃ c ∈ g.current.cells, g.current.y + c.2 < 0) →
      (g.lock_piece shuffle).game_over = true) ∧
    (∀ (shuffle : List Kind → List Kind) (g : TetrisGame) (k : Key),
      g.game_over = true →
      (k = Key.left ∨ k = Key.right ∨ k = Key.down ∨ k = Key.up ∨ k = Key.space) →
      g.on_key shuffle k = g) ∧
    (∀ (shuffle : List Kind → List Kind) (g : TetrisGame) (due : Bool),
      g.game_over = true → g.tick shuffle due = g) := by
  refine ⟨?_, ?_, ?_⟩
  · intro shuffle g hex
    have hm := mergeCells_snd_true g.current.kind g.current.x g.current.y g.current.cells
      g.board hex
    rcases hmc : mergeCells g.current.kind g.current.x g.current.y g.current.cells g.board
      with ⟨b1, flag⟩
    rw [hmc] at hm
    simp only at hm
    subst hm
    simp [TetrisGame.lock_piece, hmc]
  · intro shuffle g k hg hk
    rcases hk with rfl | rfl | rfl | rfl | rfl <;> simp [TetrisGame.on_key, hg]
  · intro shuffle g due hg
    simp [TetrisGame.tick, hg]

/-- C9 witnessed: a lock at the spawn position (cells above the top row)
sets game over, and in a game-over state the left key and the gravity
tick are no-ops. -/
theorem c9_game_over_witness :
    (gW9.lock_piece (fun l => l)).game_over = true ∧
    gOver.on_key (fun l => l) Key.left = gOver ∧
    gOver.tick (fun l => l) true = gOver := by
  refine ⟨?_, ?_, ?_⟩
  · exact c9_game_over.1 (fun l => l) gW9 ⟨(0, 1), by decide, by decide⟩
  · exact c9_game_over.2.1 (fun l => l) gOver Key.left rfl (Or.inl rfl)
  · exact c9_game_over.2.2 (fun l => l) gOver true rfl

/-! ## Claim C10 (clear_lines shape invariants and return value) -/

/-- C10 counterexample: the claim states `clear_lines` returns exactly the
number of full rows it removed.  On the board `cB`, whose two bottom rows
are full, `clear_lines` returns 2, but the resulting board still contains
one full row: only one full row was actually removed (together with a
wrongly deleted non-full row), so the return value is not the number of
full rows removed. -/
theorem c10_return_count_mismatch :
    (clear_lines cB).2 = 2 ∧
    (cB.filter rowFull).length = 2 ∧
    ((clear_lines cB).1.filter rowFull).length = 1 := by
  decide

/-- C10 amended: on a well-formed board (20 rows of width 10),
`clear_lines` preserves the dimensions; the result consists of some
number of entirely empty rows at the top followed by a subsequence of the
input rows in their original relative order; and the returned count is
exactly the number of full rows in the input board (which, when two or
more rows are full, can exceed the number of full rows actually
removed). -/
theorem c10_amended (b : Board) (h1 : b.length = ROWS) (h2 : ∀ r ∈ b, r.length = COLS) :
    (clear_lines b).1.length = ROWS ∧
    (∀ r ∈ (clear_lines b).1, r.length = COLS) ∧
    (clear_lines b).2 = (b.filter rowFull).length ∧
    ∃ s : Board, s.Sublist b ∧
      (clear_lines b).1 = List.replicate (ROWS - s.length) emptyRow ++ s := by
  obtain ⟨s2, hs2, heq⟩ := clearFold_spec b (fullRows b).reverse b b
    (fun i hi => fullRows_lt b i (List.mem_reverse.mp hi)) (List.Sublist.refl b)
    (by simp)
  have hs2len : s2.length ≤ b.length := List.Sublist.length_le hs2
  have hfold : (clear_lines b).1 = List.replicate (b.length - s2.length) emptyRow ++ s2 := by
    simpa [clear_lines] using heq
  refine ⟨?_, ?_, ?_, s2, hs2, by rw [hfold, h1]⟩
  · rw [hfold]
    simp only [List.length_append, List.length_replicate]
    omega
  · intro r hr
    rw [hfold] at hr
    rcases List.mem_append.mp hr with hre | hrs
    · rw [List.eq_of_mem_replicate hre]
      simp [emptyRow]
    · exact h2 r (hs2.subset hrs)
  · simpa [clear_lines] using fullRows_length b

/-- C10 amended, witnessed at the empty board. -/
theorem c10_amended_witness :
    (clear_lines emptyBoard).1.length = ROWS ∧
    (∀ r ∈ (clear_lines emptyBoard).1, r.length = COLS) ∧
    (clear_lines emptyBoard).2 = (emptyBoard.filter rowFull).length ∧
    ∃ s : Board, s.Sublist emptyBoard ∧
      (clear_lines emptyBoard).1 = List.replicate (ROWS - s.length) emptyRow ++ s :=
  c10_amended emptyBoard (by decide) (by decide)
